import Mathlib

/-
Verification of the Relay client-side transfer engine
(src/client/src-tauri/src/...), shallowly embedded in Lean 4.

Conventions of the embedding:
* Rust byte slices and vectors are `List Nat` with each byte < 256 where it
  matters; machine integers are `Nat` with explicit `% 2 ^ w` at overflow
  points.
* Rust strings are `List Char` (ASCII-faithful model of str operations).
* Fallible Rust functions returning AppResult are `Except AppError _`.
* Stateful methods take the state explicitly and return the updated state;
  an early return via the ? operator leaves the state as it was before the
  call, which the embedding makes explicit.
* A Rust Vec index expression vec[i] panics when i is out of bounds; where
  the source indexes without a bounds check the embedding returns a
  distinguished panicked outcome rather than silently totalising.
-/

deriving instance DecidableEq for Except

namespace Relay

/-- Error kinds of src/error.rs (enum AppError). The Io payload is modelled
as its display string. -/
inductive AppError where
  | Crypto (msg : String)
  | Network (msg : String)
  | Transfer (msg : String)
  | Io (msg : String)
  | Serialization (msg : String)
  | WebSocket (msg : String)
  | SessionExpired
  | Cancelled
  | PeerRejected
  | ChecksumMismatch (msg : String)
  | CodeInUse
  | ConnectionTimeout
  | InvalidCode (msg : String)
  deriving DecidableEq

/-- Big-endian reading of 4 header bytes, as in u32::from_be_bytes. -/
def fromBe32 (b0 b1 b2 b3 : Nat) : Nat :=
  ((b0 * 256 + b1) * 256 + b2) * 256 + b3

/-- u64::to_be_bytes: the 8 big-endian bytes of a 64-bit counter. -/
def toBeBytes8 (n : Nat) : List Nat :=
  [n / 2 ^ 56 % 256, n / 2 ^ 48 % 256, n / 2 ^ 40 % 256, n / 2 ^ 32 % 256,
   n / 2 ^ 24 % 256, n / 2 ^ 16 % 256, n / 2 ^ 8 % 256, n % 256]

/-- Big-endian value of a byte list (used to show toBeBytes8 is injective
below 2^64). -/
def fromBeN : List Nat → Nat
  | [] => 0
  | b :: rest => b * 256 ^ rest.length + fromBeN rest

/-- Modelled from the spec: the AES-256-GCM primitive itself is the external
ring crate (seal_in_place_append_tag / open_in_place in src/crypto/aes_gcm.rs),
not code under src/. Per spec 4.2 it is modelled as an ideal AEAD: the body is
the plaintext shifted byte-wise by a key-and-nonce keystream, and the 16-byte
GCM tag is an opaque ideal tag recording exactly the (key, nonce, body) it
authenticates; decryption succeeds iff the tag matches, and any failure is
the Crypto("AES-GCM decryption failed (tampered or wrong key)") error. -/
structure GcmTag where
  key : List Nat
  nonce : List Nat
  body : List Nat
  deriving DecidableEq

/-- A ciphertext-with-tag as returned by encrypt_chunk: the encrypted body
plus the (ideal) 16-byte authentication tag. -/
structure CtWithTag where
  body : List Nat
  tag : GcmTag
  deriving DecidableEq

/-- Byte-wise keystream of the ideal cipher (any concrete key- and
nonce-dependent function works; only invertibility matters). -/
def ksByte (key nonce : List Nat) (i : Nat) : Nat :=
  (key.sum + 7 * nonce.sum + 13 * i + 1) % 256

/-- Ideal sealing of a plaintext starting at keystream position i. -/
def sealFrom (key nonce : List Nat) (i : Nat) : List Nat → List Nat
  | [] => []
  | b :: rest => (b + ksByte key nonce i) % 256 :: sealFrom key nonce (i + 1) rest

/-- Ideal opening (inverse keystream) starting at position i. -/
def openFrom (key nonce : List Nat) (i : Nat) : List Nat → List Nat
  | [] => []
  | b :: rest => (b + (256 - ksByte key nonce i)) % 256 :: openFrom key nonce (i + 1) rest

/-- seal_in_place_append_tag: encrypt the plaintext and append the tag. -/
def gcmSeal (key nonce pt : List Nat) : CtWithTag :=
  CtWithTag.mk (sealFrom key nonce 0 pt) (GcmTag.mk key nonce (sealFrom key nonce 0 pt))

/-- Wire length in bytes of a ciphertext-with-tag: the GCM tag of
AES_256_GCM serialises as 16 bytes appended to the body (spec 4.2). -/
def ctLen (c : CtWithTag) : Nat := c.body.length + 16

/-- ChunkDecryptor::decrypt_chunk of src/crypto/aes_gcm.rs: open_in_place
with empty AAD; any failure maps to the Crypto error below. The decryptor
state is just its key. -/
def decrypt_chunk (key : List Nat) (ciphertext : CtWithTag) (nonce : List Nat) :
    Except AppError (List Nat) :=
  if ciphertext.tag = GcmTag.mk key nonce ciphertext.body then
    .ok (openFrom key nonce 0 ciphertext.body)
  else
    .error (.Crypto "AES-GCM decryption failed (tampered or wrong key)")

/-- ChunkEncryptor of src/crypto/aes_gcm.rs: a 4-byte random nonce
noncePre (nonce field named with the source spelling shortened) and a u64
counter. The key is passed alongside. -/
structure ChunkEncryptor where
  noncePre : List Nat
  counter : Nat
  deriving DecidableEq

/-- ChunkEncryptor::make_nonce: 4-byte random value followed by the 8
big-endian counter bytes. -/
def make_nonce (e : ChunkEncryptor) : List Nat :=
  e.noncePre ++ toBeBytes8 e.counter

/-- ChunkEncryptor::encrypt_chunk: build the nonce, seal with empty AAD and
appended tag, then increment the counter (u64 wrapping arithmetic). Returns
((ciphertext_with_tag, nonce), updated encryptor). -/
def encrypt_chunk (key : List Nat) (e : ChunkEncryptor) (pt : List Nat) :
    (CtWithTag × List Nat) × ChunkEncryptor :=
  let nonce := make_nonce e
  ((gcmSeal key nonce pt, nonce),
   ChunkEncryptor.mk e.noncePre ((e.counter + 1) % 2 ^ 64))

/-- A sequence of encrypt_chunk calls threaded through the encryptor state,
returning the (ciphertext, nonce) outputs in call order. -/
def encryptSeq (key : List Nat) (e : ChunkEncryptor) : List (List Nat) →
    List (CtWithTag × List Nat)
  | [] => []
  | pt :: rest =>
    let out := encrypt_chunk key e pt
    out.1 :: encryptSeq key out.2 rest

/-- The i-th ciphertext produced by a fresh encryptor (counter 0, random
4-byte value pre) over plaintext list pts. -/
def nthCt (key pre : List Nat) (pts : List (List Nat)) (i : Nat) : CtWithTag :=
  ((encryptSeq key (ChunkEncryptor.mk pre 0) pts).getD i
    (CtWithTag.mk [] (GcmTag.mk [] [] []), [])).1

/-- The i-th nonce produced by a fresh encryptor over plaintext list pts. -/
def nthNonce (key pre : List Nat) (pts : List (List Nat)) (i : Nat) : List Nat :=
  ((encryptSeq key (ChunkEncryptor.mk pre 0) pts).getD i
    (CtWithTag.mk [] (GcmTag.mk [] [] []), [])).2

/-- Modelled from the spec: SHA-256 itself is the external sha2 crate used by
StreamingChecksum (src/crypto/checksum.rs), not code under src/. The
streaming digest is modelled as an ideal (injective) digest of the bytes fed
to it, so a digest value is the fed byte list itself. -/
def sha256Ideal (fed : List Nat) : List Nat := fed

/-- Hex rendering used in the ChecksumMismatch message (fn hex of
src/protocol/reassembler.rs). -/
def hexDigitChar (n : Nat) : Char :=
  if n < 10 then Char.ofNat (48 + n) else Char.ofNat (87 + n)

/-- Two lowercase hex digits of one byte. -/
def hexByte (b : Nat) : List Char := [hexDigitChar (b / 16 % 16), hexDigitChar (b % 16)]

/-- fn hex of src/protocol/reassembler.rs over a byte list. -/
def hexStr (bytes : List Nat) : String := String.mk (bytes.map hexByte).flatten

/-- FileReassembler of src/protocol/reassembler.rs: the created output file
(its bytes so far), the bytes fed to the streaming checksum, and the
bytes_written accumulator. The decryptor key is passed alongside. -/
structure FileReassembler where
  fileBytes : List Nat
  checksumFed : List Nat
  bytes_written : Nat
  deriving DecidableEq

/-- FileReassembler::new: freshly created empty file, fresh checksum,
zero bytes written. -/
def FileReassembler.new : FileReassembler := FileReassembler.mk [] [] 0

/-- FileReassembler::write_chunk: decrypt (an error here is returned by the
? operator before any mutation happens, so the state is returned untouched),
then update checksum, append to the file and bump bytes_written. -/
def write_chunk (key : List Nat) (r : FileReassembler) (ciphertext : CtWithTag)
    (nonce : List Nat) : Except AppError Unit × FileReassembler :=
  match decrypt_chunk key ciphertext nonce with
  | .error e => (.error e, r)
  | .ok pt =>
    (.ok (), FileReassembler.mk (r.fileBytes ++ pt) (r.checksumFed ++ pt)
      (r.bytes_written + pt.length))

/-- FileReassembler::verify: compare the finalised digest with the expected
one; mismatch is the ChecksumMismatch error (its message shows the first 8
bytes of each digest in hex). -/
def FileReassembler.verify (r : FileReassembler) (expected : List Nat) :
    Except AppError Unit :=
  if sha256Ideal r.checksumFed = expected then .ok ()
  else
    .error (.ChecksumMismatch ("expected " ++ hexStr (expected.take 8) ++ ", got "
      ++ hexStr ((sha256Ideal r.checksumFed).take 8)))

/-- FileInfo of src/protocol/messages.rs. -/
structure FileInfo where
  name : String
  size : Nat
  relative_path : Option String
  deriving DecidableEq

/-- PeerMessage of src/protocol/messages.rs. file_index (u16 on the wire) and
chunk_index (u32) are Nat; chunk data is modelled at the AEAD level as a
ciphertext-with-tag, whose wire byte length is ctLen. -/
inductive PeerMessage where
  | FileOffer (files : List FileInfo)
  | FileAccept
  | FileDecline
  | FileChunk (file_index : Nat) (chunk_index : Nat) (data : CtWithTag) (nonce : List Nat)
  | FileComplete (file_index : Nat) (sha256 : List Nat)
  | FileVerified (file_index : Nat)
  | TransferComplete
  | Cancel (reason : String)
  | Ping
  | Pong
  deriving DecidableEq

/-- Outcome of one iteration of the receiver loop of run_receive
(src/transfer/receiver.rs, lines 129-195): continue with updated reassembler
slots and a progress advance, break out of the loop, fail with an error, or
hit a Rust panic. -/
inductive RecvOutcome where
  | ok (slots : List (Option FileReassembler)) (progressAdvance : Nat)
  | finished
  | err (e : AppError)
  | panicked (msg : String)
  deriving DecidableEq

/-- One iteration of the receiver loop of run_receive over the received
message. The FileChunk arm bounds-checks file_index before indexing; the
FileComplete arm indexes reassemblers[idx] with no bounds check, which in
Rust panics when idx is out of bounds — the embedding returns the panicked
outcome there. plaintext_size mirrors the source expression
(if data.len() > 16 then data.len() - 16 else data.len()), computed on the
wire byte length of the chunk data. -/
def recvStep (key : List Nat) (slots : List (Option FileReassembler))
    (msg : PeerMessage) : RecvOutcome :=
  match msg with
  | .FileChunk file_index _ data nonce =>
    if h : file_index < slots.length then
      match slots.get ⟨file_index, h⟩ with
      | none => .err (.Transfer "file already completed")
      | some r =>
        let plaintext_size := if ctLen data > 16 then ctLen data - 16 else ctLen data
        match write_chunk key r data nonce with
        | (.error e, _) => .err e
        | (.ok (), r2) => .ok (slots.set file_index (some r2)) plaintext_size
    else .err (.Transfer ("invalid file index: " ++ toString file_index))
  | .FileComplete file_index sha256 =>
    if h : file_index < slots.length then
      match slots.get ⟨file_index, h⟩ with
      | none => .err (.Transfer "file already completed")
      | some r =>
        match r.verify sha256 with
        | .error e => .err e
        | .ok () => .ok (slots.set file_index none) 0
    else .panicked "index out of bounds"
  | .TransferComplete => .finished
  | .Cancel reason => .err (.Transfer ("sender cancelled: " ++ reason))
  | _ => .err (.Transfer "unexpected message during transfer")

/-- The verification wait of run_send (src/transfer/sender.rs, lines
154-170): after sending file_complete for fileIndex, match on the next peer
message. The source pattern FileVerified { .. } ignores the message's
file_index entirely; fileIndex is the loop's current index, unused by the
match. -/
def sender_verify_wait (fileIndex : Nat) (msg : PeerMessage) : Except AppError Unit :=
  match msg with
  | .FileVerified _ => .ok ()
  | .Cancel reason => .error (.Transfer ("peer cancelled: " ++ reason))
  | _ => .error (.Transfer "expected FileVerified message")

/-- The frame-size cap of read_message (src/protocol/messages.rs). -/
def MAX_MESSAGE_LEN : Nat := 256 * 1024 * 1024

/-- read_message of src/protocol/messages.rs over the incoming QUIC byte
stream: read the 4-byte big-endian length header (short read is a Network
error), reject lengths over 256 MiB as a Transfer error, then read the
payload bytes that rmp_serde would decode. The embedding stops at the
decoded payload bytes; decoding itself is the external rmp_serde crate. -/
def read_message (stream : List Nat) : Except AppError (List Nat) :=
  match stream with
  | b0 :: b1 :: b2 :: b3 :: rest =>
    let len := fromBe32 b0 b1 b2 b3
    if len > MAX_MESSAGE_LEN then
      .error (.Transfer ("message too large: " ++ toString len ++ " bytes"))
    else if rest.length < len then
      .error (.Network "failed to read message payload")
    else .ok (rest.take len)
  | _ => .error (.Network "failed to read message length")

/-- The binary-frame branch of RelayStream::recv_message
(src/network/relay.rs, lines 61-83) on one WebSocket binary frame: frames
shorter than 4 bytes are a Transfer error; the 4-byte big-endian header must
equal the payload length exactly; otherwise the payload is handed to
rmp_serde. There is no maximum-size check on this path. -/
def relay_recv_frame (data : List Nat) : Except AppError (List Nat) :=
  match data with
  | b0 :: b1 :: b2 :: b3 :: rest =>
    let len := fromBe32 b0 b1 b2 b3
    if rest.length ≠ len then
      .error (.Transfer ("relay message length mismatch: header says "
        ++ toString len ++ ", got " ++ toString rest.length ++ " payload bytes"))
    else .ok rest
  | _ => .error (.Transfer "relay message too short (< 4 bytes)")

/-- The NUL character. -/
def NUL : Char := Char.ofNat 0

/-- Does the string start with the given character (str::starts_with on a
char pattern)? -/
def startsWithChar (c : Char) : List Char → Bool
  | [] => false
  | x :: _ => x = c

/-- A path component in the sense of std::path::Component on Unix. The
Prefix variant cannot arise on Unix and is omitted; RootDir arises only for
absolute paths. -/
inductive PathComponent where
  | rootDir
  | curDir
  | parentDir
  | normal (s : List Char)
  deriving DecidableEq

/-- Split a character list at every occurrence of sep, keeping empty chunks
(like str::split). -/
def splitSep (sep : Char) : List Char → List (List Char)
  | [] => [[]]
  | c :: rest =>
    if c = sep then [] :: splitSep sep rest
    else
      match splitSep sep rest with
      | [] => [[c]]
      | h :: t => (c :: h) :: t

/-- Path::components() on Unix: a leading slash yields RootDir; empty chunks
(repeated or trailing separators) are dropped; "." is CurDir and ".." is
ParentDir; everything else is Normal. (std normalises non-leading CurDir
away; sanitize_path skips CurDir anyway, so mapping every "." chunk to
curDir yields the same sanitised output and the same rejections.) -/
def componentsOf (p : List Char) : List PathComponent :=
  let chunks := (splitSep '/' p).filter (fun c => ¬ c.isEmpty)
  let comps := chunks.map (fun c =>
    if c = ['.'] then PathComponent.curDir
    else if c = ['.', '.'] then PathComponent.parentDir
    else PathComponent.normal c)
  if startsWithChar '/' p then PathComponent.rootDir :: comps else comps

/-- The per-component cleaning of sanitize_path's Normal arm: replace the
two separator characters with an underscore, then drop NUL bytes. -/
def cleanComponent (s : List Char) : List Char :=
  (s.map (fun c => if c = '/' ∨ c = '\\' then '_' else c)).filter (fun c => c ≠ NUL)

/-- The component loop of sanitize_path (src/transfer/receiver.rs, lines
228-254): Normal components are cleaned and pushed when non-empty, CurDir is
skipped, ParentDir and RootDir abort with a Transfer error. rp is the
original input, used in the error messages. -/
def sanitizeLoop (rp : List Char) : List PathComponent → List (List Char) →
    Except AppError (List (List Char))
  | [], acc => .ok acc
  | PathComponent.normal c :: rest, acc =>
    let clean := cleanComponent c
    if clean = [] then sanitizeLoop rp rest acc
    else sanitizeLoop rp rest (acc ++ [clean])
  | PathComponent.parentDir :: _, _ =>
    .error (.Transfer ("path traversal not allowed: " ++ String.mk rp))
  | PathComponent.curDir :: rest, acc => sanitizeLoop rp rest acc
  | PathComponent.rootDir :: _, _ =>
    .error (.Transfer ("absolute path component not allowed: " ++ String.mk rp))

/-- sanitize_path of src/transfer/receiver.rs (lines 213-263): reject
absolute paths (on Unix, Path::is_absolute is exactly a leading slash) and
leading backslashes, reject NUL bytes, run the component loop, and reject an
empty result. The sanitised PathBuf is the list of its components. -/
def sanitize_path (rel_path : List Char) : Except AppError (List (List Char)) :=
  if startsWithChar '/' rel_path ∨ startsWithChar '\\' rel_path then
    .error (.Transfer ("absolute path not allowed: " ++ String.mk rel_path))
  else if NUL ∈ rel_path then
    .error (.Transfer "null byte in path")
  else
    match sanitizeLoop rel_path (componentsOf rel_path) [] with
    | .error e => .error e
    | .ok safe =>
      if safe = [] then
        .error (.Transfer ("path resolves to empty: " ++ String.mk rel_path))
      else .ok safe

/-- str::replace("..", "_"): scan left to right, replacing non-overlapping
occurrences of two consecutive dots with one underscore. -/
def replaceDotDot : List Char → List Char
  | '.' :: '.' :: rest => '_' :: replaceDotDot rest
  | c :: rest => c :: replaceDotDot rest
  | [] => []

/-- sanitize_filename of src/transfer/receiver.rs (lines 266-276): replace
the separator characters with underscores, then replace ".." occurrences
with underscores, then drop NUL characters; an empty result becomes
"unnamed_file". Note the order: NUL removal happens after the ".."
replacement. -/
def sanitize_filename (name : List Char) : List Char :=
  let step1 := name.map (fun c => if c = '/' ∨ c = '\\' then '_' else c)
  let step2 := replaceDotDot step1
  let step3 := step2.filter (fun c => c ≠ NUL)
  if step3 = [] then ("unnamed_file".data) else step3

/-- TransferCode of src/transfer/code.rs: one digit and two words. -/
structure TransferCode where
  digit : Nat
  word1 : List Char
  word2 : List Char
  deriving DecidableEq

/-- TransferCode::to_code_string: format "{digit}-{word1}-{word2}" (the
digit, a u8, prints in decimal). -/
def to_code_string (c : TransferCode) : List Char :=
  (toString c.digit).data ++ '-' :: c.word1 ++ '-' :: c.word2

/-- ASCII whitespace, the fragment of str::trim relevant to code strings. -/
def isWsChar (c : Char) : Bool := c = ' ' ∨ c = '\t' ∨ c = '\n' ∨ c = '\r'

/-- str::trim (ASCII model): drop leading and trailing whitespace. -/
def trimChars (s : List Char) : List Char :=
  ((s.dropWhile isWsChar).reverse.dropWhile isWsChar).reverse

/-- Split off everything before the first occurrence of sep, or none when
sep does not occur. -/
def splitOnce (sep : Char) : List Char → Option (List Char × List Char)
  | [] => none
  | c :: rest =>
    if c = sep then some ([], rest)
    else
      match splitOnce sep rest with
      | none => none
      | some (a, b) => some (c :: a, b)

/-- str::splitn(3, sep): at most three parts, the last one keeping any
further separators. -/
def splitn3 (sep : Char) (s : List Char) : List (List Char) :=
  match splitOnce sep s with
  | none => [s]
  | some (a, rest) =>
    match splitOnce sep rest with
    | none => [a, rest]
    | some (b, c) => [a, b, c]

/-- Value of one decimal digit character. -/
def digitVal (c : Char) : Option Nat :=
  if '0' ≤ c ∧ c ≤ '9' then some (c.toNat - 48) else none

/-- Accumulating loop of u8::from_str: fail on a non-digit or when the
accumulated value would exceed 255. -/
def parseDigitsLoop : List Char → Nat → Option Nat
  | [], acc => some acc
  | c :: rest, acc =>
    match digitVal c with
    | none => none
    | some d => if acc * 10 + d > 255 then none else parseDigitsLoop rest (acc * 10 + d)

/-- str::parse::<u8>: an optional leading plus sign, then at least one
decimal digit, value at most 255. -/
def parseU8 (s : List Char) : Option Nat :=
  match s with
  | [] => none
  | '+' :: rest => if rest = [] then none else parseDigitsLoop rest 0
  | _ => parseDigitsLoop s 0

/-- Lowercasing of one character (ASCII model of str::to_lowercase). -/
def toLowerChar (c : Char) : Char :=
  if 'A' ≤ c ∧ c ≤ 'Z' then Char.ofNat (c.toNat + 32) else c

/-- str::to_lowercase over a character list (ASCII model). -/
def toLowercase (s : List Char) : List Char := s.map toLowerChar

/-- TransferCode::parse of src/transfer/code.rs (lines 36-72), with the
dictionary passed explicitly: trim, split into at most three dash-separated
parts, require exactly three, parse the digit as u8 and require it at most
9, lowercase the words and require dictionary membership.

Modelled from the spec: wordlist.txt (the fixed 256-word dictionary baked in
with include_str!) is not under src/; the dictionary is therefore a
parameter here, and spec 4.1 and the glossary fix its entries as the trimmed
non-comment lines, i.e. plain lowercase words such as "guitar" and
"palace". -/
def parseCode (words : List (List Char)) (code : List Char) :
    Except AppError TransferCode :=
  match splitn3 '-' (trimChars code) with
  | [p0, p1, p2] =>
    match parseU8 p0 with
    | none => .error (.InvalidCode "first part must be a digit 0-9")
    | some digit =>
      if digit > 9 then .error (.InvalidCode "digit must be 0-9")
      else
        let word1 := toLowercase p1
        let word2 := toLowercase p2
        if word1 ∉ words then
          .error (.InvalidCode ("unknown word: " ++ String.mk word1))
        else if word2 ∉ words then
          .error (.InvalidCode ("unknown word: " ++ String.mk word2))
        else .ok (TransferCode.mk digit word1 word2)
  | _ => .error (.InvalidCode "expected format: digit-word-word")

/-- Joining path components with slashes, the inverse direction of
componentsOf for building safe relative inputs. -/
def joinSlash : List (List Char) → List Char
  | [] => []
  | [c] => c
  | c :: rest => c ++ '/' :: joinSlash rest

/-- A safe relative-path component: non-empty, no separators, no NUL, and
not a "." or ".." component. -/
def safeComponent (c : List Char) : Prop :=
  c ≠ [] ∧ '/' ∉ c ∧ '\\' ∉ c ∧ NUL ∉ c ∧ c ≠ ['.'] ∧ c ≠ ['.', '.']

instance (c : List Char) : Decidable (safeComponent c) := by
  unfold safeComponent; infer_instance

/-- Lowercase ASCII letter. -/
def isLowerAlpha (c : Char) : Bool := 'a' ≤ c ∧ c ≤ 'z'

/-- A dictionary word as fixed by the spec: non-empty, all lowercase ASCII
letters. -/
def dictWord (w : List Char) : Prop := w ≠ [] ∧ ∀ c ∈ w, isLowerAlpha c = true

instance (w : List Char) : Decidable (dictWord w) := by
  unfold dictWord; infer_instance

theorem ksByte_lt (key nonce : List Nat) (i : Nat) : ksByte key nonce i < 256 :=
  Nat.mod_lt _ (by norm_num)

theorem sealFrom_length (key nonce : List Nat) (pt : List Nat) :
    ∀ i, (sealFrom key nonce i pt).length = pt.length := by
  induction pt with
  | nil => intro i; rfl
  | cons b rest ih => intro i; simp [sealFrom, ih]

theorem openFrom_sealFrom (key nonce : List Nat) (pt : List Nat)
    (hpt : ∀ b ∈ pt, b < 256) :
    ∀ i, openFrom key nonce i (sealFrom key nonce i pt) = pt := by
  induction pt with
  | nil => intro i; rfl
  | cons b rest ih =>
    intro i
    have hb : b < 256 := hpt b (by simp)
    have hk : ksByte key nonce i < 256 := ksByte_lt key nonce i
    have hrest : ∀ x ∈ rest, x < 256 := fun x hx => hpt x (by simp [hx])
    simp only [sealFrom, openFrom, ih hrest]
    have hhead : ((b + ksByte key nonce i) % 256 + (256 - ksByte key nonce i)) % 256 = b := by
      omega
    rw [hhead]

theorem toBeBytes8_congr {a b : Nat} (h : a % 2 ^ 64 = b % 2 ^ 64) :
    toBeBytes8 a = toBeBytes8 b := by
  simp only [toBeBytes8, List.cons.injEq, and_true]
  omega

theorem fromBeN_toBeBytes8 (n : Nat) (h : n < 2 ^ 64) : fromBeN (toBeBytes8 n) = n := by
  simp only [toBeBytes8, fromBeN, List.length_cons, List.length_nil]
  norm_num
  omega

theorem toBeBytes8_inj {n m : Nat} (hn : n < 2 ^ 64) (hm : m < 2 ^ 64)
    (h : toBeBytes8 n = toBeBytes8 m) : n = m := by
  have := congrArg fromBeN h
  rwa [fromBeN_toBeBytes8 n hn, fromBeN_toBeBytes8 m hm] at this

theorem encryptSeq_length (key : List Nat) (e : ChunkEncryptor) (pts : List (List Nat)) :
    (encryptSeq key e pts).length = pts.length := by
  induction pts generalizing e with
  | nil => rfl
  | cons pt rest ih => simp [encryptSeq, ih]

theorem encryptSeq_getD (key pre : List Nat) (pts : List (List Nat)) :
    ∀ c i, i < pts.length →
      (encryptSeq key (ChunkEncryptor.mk pre c) pts).getD i
          (CtWithTag.mk [] (GcmTag.mk [] [] []), []) =
        (gcmSeal key (pre ++ toBeBytes8 (c + i)) (pts.getD i []),
         pre ++ toBeBytes8 (c + i)) := by
  induction pts with
  | nil => intro c i hi; simp at hi
  | cons pt rest ih =>
    intro c i hi
    match i with
    | 0 => simp [encryptSeq, encrypt_chunk, make_nonce]
    | Nat.succ j =>
      have hj : j < rest.length := by simpa using hi
      have step := ih ((c + 1) % 2 ^ 64) j hj
      have hcongr : toBeBytes8 ((c + 1) % 2 ^ 64 + j) = toBeBytes8 (c + (j + 1)) :=
        toBeBytes8_congr (by omega)
      simp only [encryptSeq, encrypt_chunk, List.getD_cons_succ, step, hcongr,
        List.getD_cons_succ]

theorem nthNonce_eq (key pre : List Nat) (pts : List (List Nat)) (i : Nat)
    (hi : i < pts.length) : nthNonce key pre pts i = pre ++ toBeBytes8 i := by
  have := encryptSeq_getD key pre pts 0 i hi
  simp only [nthNonce, this, Nat.zero_add]

theorem nthCt_eq (key pre : List Nat) (pts : List (List Nat)) (i : Nat)
    (hi : i < pts.length) :
    nthCt key pre pts i = gcmSeal key (pre ++ toBeBytes8 i) (pts.getD i []) := by
  have := encryptSeq_getD key pre pts 0 i hi
  simp only [nthCt, this, Nat.zero_add]

/-- C5: on a fresh ChunkEncryptor the i-th successful encrypt_chunk call
returns the nonce made of the 4-byte random value followed by the 8-byte
big-endian encoding of i, and a ciphertext exactly 16 bytes longer than the
plaintext; nonces of distinct calls (indices below 2^64, the range a u64
counter can traverse) are pairwise distinct. -/
theorem c5_nonce_counter_structure (key pre : List Nat) (pts : List (List Nat))
    (i : Nat) (hi : i < pts.length) (h64 : i < 2 ^ 64) :
    nthNonce key pre pts i = pre ++ toBeBytes8 i ∧
    ctLen (nthCt key pre pts i) = (pts.getD i []).length + 16 ∧
    ∀ j, j < pts.length → j < 2 ^ 64 → j ≠ i →
      nthNonce key pre pts j ≠ nthNonce key pre pts i := by
  refine ⟨nthNonce_eq key pre pts i hi, ?_, ?_⟩
  · rw [nthCt_eq key pre pts i hi]
    simp [ctLen, gcmSeal, sealFrom_length]
  · intro j hj hj64 hne
    rw [nthNonce_eq key pre pts i hi, nthNonce_eq key pre pts j hj]
    intro hcontra
    have : toBeBytes8 j = toBeBytes8 i := by
      have := List.append_cancel_left hcontra
      exact this
    exact hne (toBeBytes8_inj hj64 h64 this)

/-- C5 witness: a fresh encryptor with random value [9,9,9,9] over two
plaintexts; the call at index 1 has the stated nonce and length, and its
nonce differs from that of index 0. -/
theorem c5_nonce_counter_structure_witness :
    nthNonce [] [9, 9, 9, 9] [[5], [6]] 1 = [9, 9, 9, 9] ++ toBeBytes8 1 ∧
    ctLen (nthCt [] [9, 9, 9, 9] [[5], [6]] 1) = 17 ∧
    nthNonce [] [9, 9, 9, 9] [[5], [6]] 0 ≠ nthNonce [] [9, 9, 9, 9] [[5], [6]] 1 := by
  have h := c5_nonce_counter_structure [] [9, 9, 9, 9] [[5], [6]] 1
    (by norm_num) (by norm_num)
  exact ⟨h.1, by simpa using h.2.1, h.2.2 0 (by norm_num) (by norm_num) (by norm_num)⟩

/-- C4: decrypting what encrypt_chunk sealed, with the same key and the
returned nonce, yields the plaintext; altering any single body byte, or any
change to the tag, or decrypting under a different key, yields the Crypto
error. (The cipher is the ideal AEAD model above; for the real external
AES-256-GCM primitive the tamper and wrong-key clauses hold
cryptographically rather than absolutely.) -/
theorem c4_aead_roundtrip_tamper_wrongkey (key key2 nonce pt : List Nat)
    (hpt : ∀ b ∈ pt, b < 256) :
    decrypt_chunk key (gcmSeal key nonce pt) nonce = .ok pt ∧
    (∀ i v, i < (gcmSeal key nonce pt).body.length →
      v ≠ (gcmSeal key nonce pt).body.getD i 0 →
      decrypt_chunk key
          (CtWithTag.mk ((gcmSeal key nonce pt).body.set i v) (gcmSeal key nonce pt).tag)
          nonce
        = .error (.Crypto "AES-GCM decryption failed (tampered or wrong key)")) ∧
    (∀ t, t ≠ (gcmSeal key nonce pt).tag →
      decrypt_chunk key (CtWithTag.mk (gcmSeal key nonce pt).body t) nonce
        = .error (.Crypto "AES-GCM decryption failed (tampered or wrong key)")) ∧
    (key2 ≠ key →
      decrypt_chunk key2 (gcmSeal key nonce pt) nonce
        = .error (.Crypto "AES-GCM decryption failed (tampered or wrong key)")) := by
  refine ⟨?_, ?_, ?_, ?_⟩
  · simp [decrypt_chunk, gcmSeal, openFrom_sealFrom key nonce pt hpt 0]
  · intro i v hi hv
    have hbody : (gcmSeal key nonce pt).body.set i v ≠ (gcmSeal key nonce pt).body := by
      intro hcontra
      have := congrArg (fun l => l.getD i 0) hcontra
      simp only [List.getD_eq_getElem?_getD, List.getElem?_set_self hi] at this
      rw [List.getElem?_eq_getElem hi] at this
      simp only [Option.getD_some] at this
      exact hv (by simpa [List.getD_eq_getElem?_getD, List.getElem?_eq_getElem hi] using this)
    simp only [decrypt_chunk, gcmSeal]
    rw [if_neg]
    intro hcontra
    apply hbody
    have := congrArg GcmTag.body hcontra
    simpa [gcmSeal] using this.symm
  · intro t ht
    simp only [decrypt_chunk]
    rw [if_neg]
    intro hcontra
    apply ht
    simpa [gcmSeal] using hcontra
  · intro hk
    simp only [decrypt_chunk, gcmSeal]
    rw [if_neg]
    intro hcontra
    have := congrArg GcmTag.key hcontra
    exact hk (by simpa using this.symm)

/-- C4 witness: a concrete round trip under key [1,2], plus failures for a
flipped body byte, a tampered tag and a wrong key. -/
theorem c4_aead_roundtrip_tamper_wrongkey_witness :
    decrypt_chunk [1, 2] (gcmSeal [1, 2] [3] [10, 20, 250]) [3] = .ok [10, 20, 250] ∧
    decrypt_chunk [1, 2]
        (CtWithTag.mk ((gcmSeal [1, 2] [3] [10, 20, 250]).body.set 0 0)
          (gcmSeal [1, 2] [3] [10, 20, 250]).tag) [3]
      = .error (.Crypto "AES-GCM decryption failed (tampered or wrong key)") ∧
    decrypt_chunk [1, 2]
        (CtWithTag.mk (gcmSeal [1, 2] [3] [10, 20, 250]).body (GcmTag.mk [] [] [])) [3]
      = .error (.Crypto "AES-GCM decryption failed (tampered or wrong key)") ∧
    decrypt_chunk [7] (gcmSeal [1, 2] [3] [10, 20, 250]) [3]
      = .error (.Crypto "AES-GCM decryption failed (tampered or wrong key)") := by
  have h := c4_aead_roundtrip_tamper_wrongkey [1, 2] [7] [3] [10, 20, 250] (by decide)
  exact ⟨h.1, h.2.1 0 0 (by decide) (by decide), h.2.2.1 (GcmTag.mk [] [] []) (by decide),
    h.2.2.2 (by decide)⟩

/-- C10: when decrypt_chunk fails inside FileReassembler::write_chunk, the
same error is returned and the reassembler state is untouched: no file
bytes written, checksum not fed, bytes_written unchanged. -/
theorem c10_write_chunk_error_atomic (key : List Nat) (r : FileReassembler)
    (ciphertext : CtWithTag) (nonce : List Nat) (e : AppError)
    (h : decrypt_chunk key ciphertext nonce = .error e) :
    write_chunk key r ciphertext nonce = (.error e, r) ∧
    (write_chunk key r ciphertext nonce).2.fileBytes = r.fileBytes ∧
    (write_chunk key r ciphertext nonce).2.checksumFed = r.checksumFed ∧
    (write_chunk key r ciphertext nonce).2.bytes_written = r.bytes_written := by
  have hw : write_chunk key r ciphertext nonce = (.error e, r) := by
    simp [write_chunk, h]
  exact ⟨hw, by rw [hw], by rw [hw], by rw [hw]⟩

/-- C10 witness: a chunk whose tag names a different key fails decryption
and leaves a fresh reassembler exactly as it was. -/
theorem c10_write_chunk_error_atomic_witness :
    write_chunk [] FileReassembler.new (CtWithTag.mk [] (GcmTag.mk [1] [] [])) []
      = (.error (.Crypto "AES-GCM decryption failed (tampered or wrong key)"),
         FileReassembler.new) :=
  (c10_write_chunk_error_atomic [] FileReassembler.new
    (CtWithTag.mk [] (GcmTag.mk [1] [] [])) []
    (.Crypto "AES-GCM decryption failed (tampered or wrong key)") (by decide)).1

/-- C1: after an accepted offer of one file, a file_chunk with file_index 1
is rejected with the Transfer invalid-index error, but a file_complete with
file_index 1 reaches the unchecked reassemblers[idx] indexing of the
FileComplete arm and panics instead of returning a Transfer error: the
FileComplete arm has no bounds check. -/
theorem c1_file_complete_oob_panics :
    recvStep [] [some FileReassembler.new] (.FileComplete 1 [])
      = .panicked "index out of bounds" ∧
    recvStep [] [some FileReassembler.new]
        (.FileChunk 1 0 (CtWithTag.mk [] (GcmTag.mk [] [] [])) [])
      = .err (.Transfer "invalid file index: 1") := by
  decide

/-- C3: sanitize_filename replaces ".." before dropping NUL characters, so
the flat file name "." ++ NUL ++ "." sanitises to exactly "..", making
save_dir.join(name) the parent of the save directory; the name is offered
without a relative_path, so the receiver would create the target outside
the save directory. -/
theorem c3_sanitize_filename_nul_dotdot :
    sanitize_filename ['.', Char.ofNat 0, '.'] = ['.', '.'] ∧
    String.mk (sanitize_filename ['.', Char.ofNat 0, '.']) = ".." := by
  decide

/-- C6 counterexample: a relay WebSocket binary frame whose 4-byte header
announces 268435457 bytes (one more than 256 MiB) and whose payload length
matches is accepted by RelayStream::recv_message and handed to the decoder,
not rejected. -/
theorem c6_relay_oversize_accepted :
    MAX_MESSAGE_LEN < fromBe32 16 0 0 1 ∧
    relay_recv_frame (16 :: 0 :: 0 :: 1 :: List.replicate (fromBe32 16 0 0 1) 0)
      = .ok (List.replicate (fromBe32 16 0 0 1) 0) := by
  constructor
  · norm_num [MAX_MESSAGE_LEN, fromBe32]
  · simp [relay_recv_frame, List.length_replicate]

/-- C6 amended: only the QUIC read path (read_message) rejects frames whose
4-byte big-endian header exceeds 256 MiB, with a Transfer error before the
payload is read or decoded; the relay WebSocket path checks only that the
frame holds at least 4 bytes and that the header equals the payload length
exactly, accepting any self-consistent frame regardless of size. -/
theorem c6_frame_size_amended :
    (∀ b0 b1 b2 b3 : Nat, ∀ rest : List Nat, fromBe32 b0 b1 b2 b3 > MAX_MESSAGE_LEN →
      read_message (b0 :: b1 :: b2 :: b3 :: rest)
        = .error (.Transfer ("message too large: "
            ++ toString (fromBe32 b0 b1 b2 b3) ++ " bytes"))) ∧
    (∀ b0 b1 b2 b3 : Nat, ∀ payload : List Nat, fromBe32 b0 b1 b2 b3 = payload.length →
      relay_recv_frame (b0 :: b1 :: b2 :: b3 :: payload) = .ok payload) := by
  constructor
  · intro b0 b1 b2 b3 rest hbig
    simp [read_message, hbig]
  · intro b0 b1 b2 b3 payload hlen
    simp [relay_recv_frame, hlen]

/-- C6 witness: a header of 4294967295 bytes is rejected on the QUIC path,
and a 1-byte relay frame with a matching header is accepted. -/
theorem c6_frame_size_amended_witness :
    read_message (255 :: 255 :: 255 :: 255 :: [])
      = .error (.Transfer ("message too large: "
          ++ toString (fromBe32 255 255 255 255) ++ " bytes")) ∧
    relay_recv_frame (0 :: 0 :: 0 :: 1 :: [7]) = .ok [7] :=
  ⟨c6_frame_size_amended.1 255 255 255 255 [] (by norm_num [fromBe32, MAX_MESSAGE_LEN]),
   c6_frame_size_amended.2 0 0 0 1 [7] (by norm_num [fromBe32])⟩

/-- C7 counterexample: after file_complete for file index 0, a file_verified
carrying file_index 5 is accepted by the sender's verification wait (the
source pattern ignores the index), where the claim requires a protocol
error. -/
theorem c7_wrong_index_verified_accepted :
    sender_verify_wait 0 (.FileVerified 5) = .ok () := by
  rfl

/-- C7 amended: after sending file_complete for index i the sender continues
on any file_verified message regardless of its file_index; a cancel{reason}
fails with Transfer("peer cancelled: " ++ reason); any other message fails
with the protocol error Transfer("expected FileVerified message"). -/
theorem c7_sender_verify_wait_spec (i : Nat) :
    (∀ j, sender_verify_wait i (.FileVerified j) = .ok ()) ∧
    (∀ reason, sender_verify_wait i (.Cancel reason)
      = .error (.Transfer ("peer cancelled: " ++ reason))) ∧
    (∀ msg, (∀ j, msg ≠ .FileVerified j) → (∀ r, msg ≠ .Cancel r) →
      sender_verify_wait i msg = .error (.Transfer "expected FileVerified message")) := by
  refine ⟨fun j => rfl, fun reason => rfl, ?_⟩
  intro msg hnv hnc
  cases msg with
  | FileVerified j => exact absurd rfl (hnv j)
  | Cancel r => exact absurd rfl (hnc r)
  | _ => rfl

/-- C7 witness: the three behaviours at index 0 on concrete messages. -/
theorem c7_sender_verify_wait_spec_witness :
    sender_verify_wait 0 (.FileVerified 3) = .ok () ∧
    sender_verify_wait 0 (.Cancel "stop")
      = .error (.Transfer ("peer cancelled: " ++ "stop")) ∧
    sender_verify_wait 0 .Ping
      = .error (.Transfer "expected FileVerified message") :=
  ⟨(c7_sender_verify_wait_spec 0).1 3,
   (c7_sender_verify_wait_spec 0).2.1 "stop",
   (c7_sender_verify_wait_spec 0).2.2 .Ping
     (fun _ h => PeerMessage.noConfusion h) (fun _ h => PeerMessage.noConfusion h)⟩

/-- C8 counterexample: a file_chunk whose ciphertext is exactly 16 bytes on
the wire (empty plaintext, authentic tag) is processed successfully and
advances the progress counter by 16, not by 0 as the claim states. -/
theorem c8_sixteen_byte_chunk_advances_sixteen :
    ctLen (CtWithTag.mk [] (GcmTag.mk [] [] [])) = 16 ∧
    recvStep [] [some FileReassembler.new]
        (.FileChunk 0 0 (CtWithTag.mk [] (GcmTag.mk [] [] [])) [])
      = .ok [some FileReassembler.new] 16 := by
  decide

/-- C8 amended: whenever the receiver loop processes a file_chunk
successfully, the progress counter advances by ciphertext length minus 16
when the length strictly exceeds 16, and by the full ciphertext length when
it is at most 16 (the source's floor branch uses a strict comparison, so a
16-byte ciphertext advances progress by 16, not 0). -/
theorem c8_chunk_progress_amended (key : List Nat)
    (slots : List (Option FileReassembler)) (fi ci : Nat) (data : CtWithTag)
    (nonce : List Nat) (slots2 : List (Option FileReassembler)) (adv : Nat)
    (h : recvStep key slots (.FileChunk fi ci data nonce) = .ok slots2 adv) :
    adv = if ctLen data > 16 then ctLen data - 16 else ctLen data := by
  simp only [recvStep] at h
  split at h
  · split at h
    · exact absurd h (by simp)
    · split at h
      · exact absurd h (by simp)
      · rw [RecvOutcome.ok.injEq] at h
        exact h.2.symm
  · exact absurd h (by simp)

/-- C8 witness: the amended advance rule evaluated at the successful 16-byte
chunk step. -/
theorem c8_chunk_progress_amended_witness :
    (16 : Nat) = if ctLen (CtWithTag.mk [] (GcmTag.mk [] [] [])) > 16 then
      ctLen (CtWithTag.mk [] (GcmTag.mk [] [] [])) - 16
    else ctLen (CtWithTag.mk [] (GcmTag.mk [] [] [])) :=
  c8_chunk_progress_amended [] [some FileReassembler.new] 0 0
    (CtWithTag.mk [] (GcmTag.mk [] [] [])) [] [some FileReassembler.new] 16 (by decide)

theorem splitSep_no_sep (sep : Char) (s : List Char) (h : sep ∉ s) :
    splitSep sep s = [s] := by
  induction s with
  | nil => rfl
  | cons c rest ih =>
    have hc : c ≠ sep := fun hcontra => h (by simp [hcontra])
    have hrest : sep ∉ rest := fun hcontra => h (by simp [hcontra])
    simp only [splitSep, if_neg hc, ih hrest]

theorem splitSep_append (sep : Char) (c t : List Char) (h : sep ∉ c) :
    splitSep sep (c ++ sep :: t) = c :: splitSep sep t := by
  induction c with
  | nil => simp [splitSep]
  | cons x rest ih =>
    have hx : x ≠ sep := fun hcontra => h (by simp [hcontra])
    have hrest : sep ∉ rest := fun hcontra => h (by simp [hcontra])
    simp only [List.cons_append, splitSep, if_neg hx, List.append_eq]
    rw [ih hrest]

theorem splitSep_joinSlash (parts : List (List Char)) (hne : parts ≠ [])
    (hsafe : ∀ c ∈ parts, '/' ∉ c) :
    splitSep '/' (joinSlash parts) = parts := by
  induction parts with
  | nil => exact absurd rfl hne
  | cons c rest ih =>
    match rest with
    | [] => exact splitSep_no_sep '/' c (hsafe c (by simp))
    | r :: rs =>
      have hstep : joinSlash (c :: r :: rs) = c ++ '/' :: joinSlash (r :: rs) := rfl
      rw [hstep, splitSep_append '/' c _ (hsafe c (by simp)),
        ih (by simp) (fun x hx => hsafe x (by simp [hx]))]

theorem componentsOf_joinSlash (parts : List (List Char)) (hne : parts ≠ [])
    (hsafe : ∀ c ∈ parts, safeComponent c) :
    componentsOf (joinSlash parts) = parts.map PathComponent.normal := by
  have hsplit : splitSep '/' (joinSlash parts) = parts :=
    splitSep_joinSlash parts hne (fun c hc => (hsafe c hc).2.1)
  have hhead : startsWithChar '/' (joinSlash parts) = false := by
    match parts, hne with
    | c :: rest, _ =>
      have hc := hsafe c (by simp)
      match c, hc.1, hc.2.1 with
      | x :: ct, _, hsep =>
        have hx : x ≠ '/' := fun hcontra => hsep (by simp [hcontra])
        match rest with
        | [] => simpa [joinSlash, startsWithChar] using hx
        | r :: rs => simpa [joinSlash, startsWithChar] using hx
  have hfilter : parts.filter (fun c => ¬ c.isEmpty) = parts := by
    apply List.filter_eq_self.mpr
    intro c hc
    have := (hsafe c hc).1
    simpa [List.isEmpty_iff] using this
  have hmap : parts.map (fun c =>
      if c = ['.'] then PathComponent.curDir
      else if c = ['.', '.'] then PathComponent.parentDir
      else PathComponent.normal c) = parts.map PathComponent.normal := by
    apply List.map_congr_left
    intro c hc
    rw [if_neg (hsafe c hc).2.2.2.2.1, if_neg (hsafe c hc).2.2.2.2.2]
  simp only [componentsOf, hsplit, hfilter, hmap, hhead, Bool.false_eq_true, if_false]

theorem cleanComponent_id (c : List Char) (h1 : '/' ∉ c) (h2 : '\\' ∉ c)
    (h3 : NUL ∉ c) : cleanComponent c = c := by
  induction c with
  | nil => rfl
  | cons x rest ih =>
    have hx1 : x ≠ '/' := fun hc => h1 (by simp [hc])
    have hx2 : x ≠ '\\' := fun hc => h2 (by simp [hc])
    have hx3 : x ≠ NUL := fun hc => h3 (by simp [hc])
    have hrec := ih (fun hc => h1 (by simp [hc])) (fun hc => h2 (by simp [hc]))
      (fun hc => h3 (by simp [hc]))
    simp only [cleanComponent] at hrec ⊢
    simp only [ne_eq, decide_not] at hrec
    simp [hx1, hx2, hx3, hrec]

theorem sanitizeLoop_normals (rp : List Char) (parts : List (List Char))
    (hsafe : ∀ c ∈ parts, safeComponent c) :
    ∀ acc, sanitizeLoop rp (parts.map PathComponent.normal) acc = .ok (acc ++ parts) := by
  induction parts with
  | nil => intro acc; simp [sanitizeLoop]
  | cons c rest ih =>
    intro acc
    have hc := hsafe c (by simp)
    have hclean : cleanComponent c = c := cleanComponent_id c hc.2.1 hc.2.2.1 hc.2.2.2.1
    simp only [List.map_cons, sanitizeLoop, hclean, if_neg hc.1,
      ih (fun x hx => hsafe x (by simp [hx])) (acc ++ [c])]
    simp

theorem sanitizeLoop_reject (rp : List Char) (l : List PathComponent)
    (h : PathComponent.parentDir ∈ l ∨ PathComponent.rootDir ∈ l) :
    ∀ acc, (sanitizeLoop rp l acc).isOk = false := by
  induction l with
  | nil => intro acc; simp at h
  | cons c rest ih =>
    intro acc
    have hrest : PathComponent.parentDir ∈ rest ∨ PathComponent.rootDir ∈ rest →
        (sanitizeLoop rp rest acc).isOk = false := fun hh => ih hh acc
    cases c with
    | parentDir => simp [sanitizeLoop, Except.isOk, Except.toBool]
    | rootDir => simp [sanitizeLoop, Except.isOk, Except.toBool]
    | curDir =>
      have : PathComponent.parentDir ∈ rest ∨ PathComponent.rootDir ∈ rest := by
        rcases h with h | h <;> simp at h <;> [left; right] <;> exact h
      exact ih this acc
    | normal s =>
      have hmem : PathComponent.parentDir ∈ rest ∨ PathComponent.rootDir ∈ rest := by
        rcases h with h | h <;> simp at h <;> [left; right] <;> exact h
      simp only [sanitizeLoop]
      split
      · exact ih hmem acc
      · exact ih hmem (acc ++ [cleanComponent s])

theorem nul_not_mem_joinSlash (parts : List (List Char))
    (h : ∀ c ∈ parts, NUL ∉ c) : NUL ∉ joinSlash parts := by
  induction parts with
  | nil => simp [joinSlash]
  | cons c rest ih =>
    intro hmem
    match rest with
    | [] => exact h c (by simp) hmem
    | r :: rs =>
      have hstep : joinSlash (c :: r :: rs) = c ++ '/' :: joinSlash (r :: rs) := rfl
      rw [hstep] at hmem
      rcases List.mem_append.mp hmem with hh | hh
      · exact h c (by simp) hh
      · rcases List.mem_cons.mp hh with hh | hh
        · exact absurd hh.symm (by decide)
        · exact ih (fun x hx => h x (by simp [hx])) hh

/-- C2: sanitize_path rejects every input starting with a slash or a
backslash (and thus every Unix absolute path), every input containing a NUL
character, and every input with a ParentDir (..) component — in particular
the four adversarial inputs "..", "/etc/passwd", "a/../b" and NUL ++ "x" —
while a join of safe components comes back verbatim, component structure
preserved. -/
theorem c2_sanitize_path_spec :
    (sanitize_path ("..".data)).isOk = false ∧
    (sanitize_path ("/etc/passwd".data)).isOk = false ∧
    (sanitize_path ("a/../b".data)).isOk = false ∧
    (sanitize_path (Char.ofNat 0 :: "x".data)).isOk = false ∧
    (∀ p, startsWithChar '/' p = true ∨ startsWithChar '\\' p = true →
      (sanitize_path p).isOk = false) ∧
    (∀ p, NUL ∈ p → (sanitize_path p).isOk = false) ∧
    (∀ p, PathComponent.parentDir ∈ componentsOf p → (sanitize_path p).isOk = false) ∧
    (∀ parts, parts ≠ [] → (∀ c ∈ parts, safeComponent c) →
      sanitize_path (joinSlash parts) = .ok parts) := by
  refine ⟨by decide, by decide, by decide, by decide, ?_, ?_, ?_, ?_⟩
  · intro p hp
    simp only [sanitize_path]
    rw [if_pos (by simpa using hp)]
    simp [Except.isOk, Except.toBool]
  · intro p hp
    simp only [sanitize_path]
    split
    · simp [Except.isOk, Except.toBool]
    · simp [hp, Except.isOk, Except.toBool]
  · intro p hp
    simp only [sanitize_path]
    split
    · simp [Except.isOk, Except.toBool]
    · split
      · simp [Except.isOk, Except.toBool]
      · have hloop := sanitizeLoop_reject p (componentsOf p) (Or.inl hp) []
        match hmatch : sanitizeLoop p (componentsOf p) [] with
        | .error e => simp [Except.isOk, Except.toBool]
        | .ok safe => rw [hmatch] at hloop; simp [Except.isOk, Except.toBool] at hloop
  · intro parts hne hsafe
    have hcomp := componentsOf_joinSlash parts hne hsafe
    have hloop := sanitizeLoop_normals (joinSlash parts) parts hsafe []
    have hhead1 : startsWithChar '/' (joinSlash parts) = false := by
      match parts, hne with
      | c :: rest, _ =>
        have hc := hsafe c (by simp)
        match c, hc.1, hc.2.1 with
        | x :: ct, _, hsep =>
          have hx : x ≠ '/' := fun hcontra => hsep (by simp [hcontra])
          match rest with
          | [] => simpa [joinSlash, startsWithChar] using hx
          | r :: rs => simpa [joinSlash, startsWithChar] using hx
    have hhead2 : startsWithChar '\\' (joinSlash parts) = false := by
      match parts, hne with
      | c :: rest, _ =>
        have hc := hsafe c (by simp)
        match c, hc.1, hc.2.2.1 with
        | x :: ct, _, hsep =>
          have hx : x ≠ '\\' := fun hcontra => hsep (by simp [hcontra])
          match rest with
          | [] => simpa [joinSlash, startsWithChar] using hx
          | r :: rs => simpa [joinSlash, startsWithChar] using hx
    have hnul : NUL ∉ joinSlash parts :=
      nul_not_mem_joinSlash parts (fun c hc => (hsafe c hc).2.2.2.1)
    simp only [sanitize_path, hhead1, hhead2, Bool.false_eq_true, or_self, if_false,
      if_neg hnul, hcomp, hloop, List.nil_append]
    rw [if_neg hne]

/-- C2 witness: the safe relative input "a/b/c.txt" is accepted with its
three components preserved, and the four adversarial inputs are rejected. -/
theorem c2_sanitize_path_spec_witness :
    sanitize_path ("a/b/c.txt".data) = .ok ["a".data, "b".data, "c.txt".data] ∧
    (sanitize_path ("..".data)).isOk = false := by
  constructor
  · have h := c2_sanitize_path_spec.2.2.2.2.2.2.2
      ["a".data, "b".data, "c.txt".data] (by decide) (by decide)
    have hjoin : joinSlash ["a".data, "b".data, "c.txt".data] = "a/b/c.txt".data := by
      decide
    rwa [hjoin] at h
  · exact c2_sanitize_path_spec.1

theorem dropWhile_eq_self_of_false (p : Char → Bool) (l : List Char)
    (h : ∀ c ∈ l, p c = false) : l.dropWhile p = l := by
  cases l with
  | nil => rfl
  | cons x rest => simp [List.dropWhile_cons, h x (by simp)]

theorem trimChars_eq_self (s : List Char) (h : ∀ c ∈ s, isWsChar c = false) :
    trimChars s = s := by
  unfold trimChars
  rw [dropWhile_eq_self_of_false _ s h,
    dropWhile_eq_self_of_false _ s.reverse (fun c hc => h c (List.mem_reverse.mp hc))]
  exact List.reverse_reverse s

theorem splitOnce_append (sep : Char) (a b : List Char) (h : sep ∉ a) :
    splitOnce sep (a ++ sep :: b) = some (a, b) := by
  induction a with
  | nil => simp [splitOnce]
  | cons x rest ih =>
    have hx : x ≠ sep := fun hc => h (by simp [hc])
    have hrest : sep ∉ rest := fun hc => h (by simp [hc])
    simp only [List.cons_append, splitOnce, if_neg hx, List.append_eq]
    rw [ih hrest]

theorem splitn3_code_shape (dchars w1 w2 : List Char) (hd : '-' ∉ dchars)
    (hw1 : '-' ∉ w1)
    (hws : ∀ ch ∈ dchars ++ ('-' :: (w1 ++ ('-' :: w2))), isWsChar ch = false) :
    splitn3 '-' (trimChars (dchars ++ ('-' :: (w1 ++ ('-' :: w2)))))
      = [dchars, w1, w2] := by
  rw [trimChars_eq_self _ hws]
  simp only [splitn3, splitOnce_append '-' dchars (w1 ++ ('-' :: w2)) hd,
    splitOnce_append '-' w1 w2 hw1]

theorem lower_not_ws (c : Char) (h : isLowerAlpha c = true) : isWsChar c = false := by
  cases hc : isWsChar c
  · rfl
  · exfalso
    simp only [isWsChar, decide_eq_true_eq] at hc
    rcases hc with rfl | rfl | rfl | rfl <;> exact absurd h (by decide)

theorem lower_no_dash (w : List Char) (h : ∀ c ∈ w, isLowerAlpha c = true) :
    '-' ∉ w :=
  fun hmem => absurd (h '-' hmem) (by decide)

theorem toLowerChar_lower (c : Char) (h : isLowerAlpha c = true) :
    toLowerChar c = c := by
  simp only [isLowerAlpha, decide_eq_true_eq] at h
  simp only [toLowerChar]
  rw [if_neg]
  rintro ⟨h1, h2⟩
  exact absurd (le_trans h.1 h2) (by decide)

theorem toLowercase_lower (w : List Char) (h : ∀ c ∈ w, isLowerAlpha c = true) :
    toLowercase w = w := by
  unfold toLowercase
  rw [List.map_congr_left (fun c hc => toLowerChar_lower c (h c hc))]
  exact List.map_id w

/-- C9: formatting a code whose digit is between 0 and 9 and whose two
words are dictionary entries, then parsing the resulting string against the
same dictionary, succeeds and returns a structurally equal code. -/
theorem c9_code_roundtrip (words : List (List Char)) (c : TransferCode)
    (hd : c.digit ≤ 9) (h1 : c.word1 ∈ words) (h2 : c.word2 ∈ words)
    (hw : ∀ w ∈ words, dictWord w) :
    parseCode words (to_code_string c) = .ok c := by
  obtain ⟨d, w1, w2⟩ := c
  simp only at hd h1 h2
  have hw1 := hw w1 h1
  have hw2 := hw w2 h2
  have hdashd : '-' ∉ (toString d).data := by
    interval_cases d <;> decide
  have hwsd : ∀ ch ∈ (toString d).data, isWsChar ch = false := by
    interval_cases d <;> decide
  have hparse : parseU8 ((toString d).data) = some d := by
    interval_cases d <;> decide
  have hws : ∀ ch ∈ (toString d).data ++ ('-' :: (w1 ++ ('-' :: w2))),
      isWsChar ch = false := by
    intro ch hch
    simp only [List.mem_append, List.mem_cons] at hch
    rcases hch with hch | hch | hch | hch | hch
    · exact hwsd ch hch
    · subst hch; decide
    · exact lower_not_ws ch (hw1.2 ch hch)
    · subst hch; decide
    · exact lower_not_ws ch (hw2.2 ch hch)
  have hshape := splitn3_code_shape ((toString d).data) w1 w2 hdashd
    (lower_no_dash w1 hw1.2) hws
  have hts : to_code_string (TransferCode.mk d w1 w2)
      = (toString d).data ++ ('-' :: (w1 ++ ('-' :: w2))) := by
    simp [to_code_string]
  simp only [parseCode, hts, hshape, hparse]
  rw [if_neg (by omega)]
  rw [toLowercase_lower w1 hw1.2, toLowercase_lower w2 hw2.2]
  rw [if_neg (fun hc => hc h1), if_neg (fun hc => hc h2)]

/-- C9 witness: a two-word dictionary and the concrete code 7-guitar-palace
round-trip to a structurally equal code. -/
theorem c9_code_roundtrip_witness :
    parseCode ["guitar".data, "palace".data]
        (to_code_string (TransferCode.mk 7 ("guitar".data) ("palace".data)))
      = .ok (TransferCode.mk 7 ("guitar".data) ("palace".data)) :=
  c9_code_roundtrip ["guitar".data, "palace".data]
    (TransferCode.mk 7 ("guitar".data) ("palace".data))
    (by decide) (by decide) (by decide) (by decide)

end Relay






